import Mathlib

/-!
Verification of the RAG (chunking / embedding / retrieval / answer) pipeline of the
df-healthbench backend.

The Python sources are shallowly embedded here:
* text is modelled as `List Char` (the inputs of interest are ASCII, so Python's
  `str.strip` and the `\s` character class are modelled over the ASCII whitespace
  characters);
* the regex-based splitters of `app/services/chunking.py`
  (`re.split(r'\n\s*\n', ...)`, `re.split(r'(?<=[.!?])\s+', ...)` and the
  `(?:^|\n)([SOAP]):\s*` scan with `re.MULTILINE`) are implemented as left-to-right
  scans with the same greedy matching behaviour;
* the database (documents, document_embeddings, document_summaries tables) is an
  explicit state record, and the CRUD functions of `app/crud/*.py` are pure
  state-passing functions over it;
* the external providers (OpenAI embeddings, chat completions, PGVector's cosine
  distance operator) are oracles passed in as function parameters;
* Python exceptions become `Except` values; wall-clock timing fields
  (`processing_time_ms` etc.) are elided.

The character-slicing loop of `_split_by_character_count` can fail to make progress,
so it is modelled with explicit fuel and an `Option` result; `none` stands for
divergence.
-/

/-- Equality of `Except` results is decidable (needed to evaluate the model on
concrete inputs). -/
instance {e a : Type _} [DecidableEq e] [DecidableEq a] :
    DecidableEq (Except e a) := fun x y =>
  match x, y with
  | .error u, .error v =>
    if h : u = v then .isTrue (by rw [h]) else .isFalse (by simp [h])
  | .error _, .ok _ => .isFalse (by simp)
  | .ok _, .error _ => .isFalse (by simp)
  | .ok u, .ok v =>
    if h : u = v then .isTrue (by rw [h]) else .isFalse (by simp [h])

/-- Python's `\s` / `str.strip()` whitespace class, restricted to ASCII. -/
def isPySpace (c : Char) : Bool :=
  c = ' ' || c = '\t' || c = '\n' || c = '\r' || c = '\x0b' || c = '\x0c'

/-- Python `str.strip()`: drop leading and trailing whitespace. -/
def pstrip (l : List Char) : List Char :=
  ((l.dropWhile isPySpace).reverse.dropWhile isPySpace).reverse

/-- Sentence-terminating punctuation of the chunker's sentence regex `[.!?]`. -/
def isPunct (c : Char) : Bool :=
  c = '.' || c = '!' || c = '?'

/-- The letters of the SOAP section-header regex `[SOAP]`. -/
def isSoapLetter (c : Char) : Bool :=
  c = 'S' || c = 'O' || c = 'A' || c = 'P'

/-- Flush the whitespace buffer of the paragraph scanner.  `buf` holds, most
recent character first, a whitespace run whose oldest character is a `'\n'`.
The greedy `\n\s*\n` match succeeds iff the run contains a second newline; it
then extends through the **last** newline of the run, and the whitespace after
that newline (returned here, most recent first) belongs to the next piece. -/
def paraFlush (buf : List Char) : Option (List Char) :=
  if '\n' ∈ buf.dropLast then some (buf.dropLast.takeWhile (fun c => c ≠ '\n'))
  else none

/-- State of the paragraph scanner: scanning a piece, or inside a whitespace run
that began with a newline (a candidate `\n\s*\n` separator). -/
inductive ParaMode where
  | normal
  | sep (buf : List Char)

/-- Model of `re.split(r'\n\s*\n', content)` as a character-at-a-time scan.  `acc` is
the current piece, reversed.  A `'\n'` opens a candidate separator; the run is
buffered until its first non-whitespace character (or the end), at which point
`paraFlush` decides whether the run matched. -/
def paraSplitAux : List Char → ParaMode → List Char → List (List Char)
  | [], .normal, acc => [acc.reverse]
  | [], .sep buf, acc =>
    match paraFlush buf with
    | some t => [acc.reverse, t.reverse]
    | none => [(buf ++ acc).reverse]
  | c :: rest, .normal, acc =>
    if c = '\n' then paraSplitAux rest (.sep ['\n']) acc
    else paraSplitAux rest .normal (c :: acc)
  | c :: rest, .sep buf, acc =>
    if isPySpace c then paraSplitAux rest (.sep (c :: buf)) acc
    else
      match paraFlush buf with
      | some t => acc.reverse :: paraSplitAux rest .normal (c :: t)
      | none => paraSplitAux rest .normal (c :: (buf ++ acc))

/-- The pieces produced by `re.split(r'\n\s*\n', content)`. -/
def splitParagraphs (content : List Char) : List (List Char) :=
  paraSplitAux content .normal []

/-- State of the sentence scanner: scanning a piece (`prev` is the character
just before the scan position), or consuming the matched `\s+` run. -/
inductive SentMode where
  | normal (prev : Option Char)
  | skipWs

/-- Model of `re.split(r'(?<=[.!?])\s+', content)` as a character-at-a-time scan: split
at each maximal whitespace run whose preceding character is `.`, `!` or `?`. -/
def sentSplitAux : List Char → SentMode → List Char → List (List Char)
  | [], _, acc => [acc.reverse]
  | c :: rest, .normal prev, acc =>
    if isPySpace c && (match prev with | some p => isPunct p | none => false) then
      acc.reverse :: sentSplitAux rest .skipWs []
    else
      sentSplitAux rest (.normal (some c)) (c :: acc)
  | c :: rest, .skipWs, acc =>
    if isPySpace c then sentSplitAux rest .skipWs acc
    else sentSplitAux rest (.normal (some c)) (c :: acc)

/-- The pieces produced by `re.split(r'(?<=[.!?])\s+', content)`. -/
def splitSentences (content : List Char) : List (List Char) :=
  sentSplitAux content (.normal none) []

/-- Does the text start with `[SOAP]:` (used for the `\n`-alternative of the
SOAP-header regex, looking past the matched newline)? -/
def soapAfterNl : List Char → Bool
  | l :: c2 :: _ => isSoapLetter l && c2 = ':'
  | _ => false

/-- State of the SOAP-header scanner (`re.finditer` with pattern
`(?:^|\n)([SOAP]):\s*` under `re.MULTILINE`): scanning (`bol` = at beginning
of line, where `^` matches), consuming the section letter after a matched
newline, consuming the colon, or consuming the greedy `\s*` tail of a match
(`lastNl` = the last consumed character was a newline, which determines `bol`
at the position where scanning resumes). -/
inductive SoapMode where
  | scan (bol : Bool)
  | nlLetter
  | colon
  | skipWs (lastNl : Bool)

/-- The `match.start()` positions of
`re.finditer(r'(?:^|\n)([SOAP]):\s*', content, re.MULTILINE)`.  A match via
`^` starts at the section letter; a match via the `\n` alternative starts at
(and consumes) the newline.  Positions inside a match are not scanned again. -/
def soapScan : List Char → Nat → SoapMode → List Nat
  | [], _, _ => []
  | c :: rest, pos, .scan bol =>
    if bol && isSoapLetter c && decide (rest.head? = some ':') then
      pos :: soapScan rest (pos + 1) .colon
    else if (c = '\n') && soapAfterNl rest then
      pos :: soapScan rest (pos + 1) .nlLetter
    else
      soapScan rest (pos + 1) (.scan (c = '\n'))
  | _ :: rest, pos, .nlLetter => soapScan rest (pos + 1) .colon
  | _ :: rest, pos, .colon => soapScan rest (pos + 1) (.skipWs false)
  | c :: rest, pos, .skipWs lastNl =>
    if isPySpace c then soapScan rest (pos + 1) (.skipWs (c = '\n'))
    else if lastNl && isSoapLetter c && decide (rest.head? = some ':') then
      pos :: soapScan rest (pos + 1) .colon
    else
      soapScan rest (pos + 1) (.scan (c = '\n'))

/-- The last `overlap` characters of a chunk (`current_chunk[-overlap:]`, used with
`overlap > 0` and `len(current_chunk) >= overlap`). -/
def takeRight (overlap : Nat) (l : List Char) : List Char :=
  l.drop (l.length - overlap)

/-- The greedy paragraph-packing loop of `_split_by_paragraphs`: pack paragraphs
into `cur` (joined by `"\n\n"`); when adding the next paragraph would exceed
`maxSize`, close `cur` (stripped) and seed the next chunk with the trailing
`overlap` characters of the closed chunk. -/
def packParagraphs (maxSize overlap : Nat) : List (List Char) → List Char →
    List (List Char) → List (List Char)
  | [], cur, acc => if cur ≠ [] then acc ++ [pstrip cur] else acc
  | p :: ps, cur, acc =>
    if cur ≠ [] ∧ maxSize < cur.length + p.length + 2 then
      packParagraphs maxSize overlap ps
        (if 0 < overlap ∧ overlap ≤ cur.length
          then pstrip (takeRight overlap cur) ++ '\n' :: '\n' :: p
          else p)
        (acc ++ [pstrip cur])
    else
      packParagraphs maxSize overlap ps
        (if cur = [] then p else cur ++ '\n' :: '\n' :: p) acc

/-- The greedy sentence-packing loop of `_split_by_sentences` (join by a single
space, threshold `len(current) + len(sentence) + 1 > max_chunk_size`). -/
def packSentences (maxSize overlap : Nat) : List (List Char) → List Char →
    List (List Char) → List (List Char)
  | [], cur, acc => if cur ≠ [] then acc ++ [pstrip cur] else acc
  | s :: ss, cur, acc =>
    if cur ≠ [] ∧ maxSize < cur.length + s.length + 1 then
      packSentences maxSize overlap ss
        (if 0 < overlap ∧ overlap ≤ cur.length
          then pstrip (takeRight overlap cur) ++ ' ' :: s
          else s)
        (acc ++ [pstrip cur])
    else
      packSentences maxSize overlap ss
        (if cur = [] then s else cur ++ ' ' :: s) acc

/-- Python slice index normalisation: negative indices count from the end and are
clamped to `[0, n]`. -/
def pySliceIdx (i : Int) (n : Nat) : Nat :=
  if i < 0 then ((n : Int) + i).toNat else min i.toNat n

/-- Model of `content[i:j]` with Python slice semantics. -/
def pySlice (content : List Char) (i j : Int) : List Char :=
  let lo := pySliceIdx i content.length
  let hi := pySliceIdx j content.length
  (content.drop lo).take (hi - lo)

/-- Model of `content.rfind(' ', i, j)`: the largest index `k` with `lo ≤ k < hi` holding a
space, or `-1`. -/
def pyRfindSpace (content : List Char) (i j : Int) : Int :=
  let lo := pySliceIdx i content.length
  let hi := pySliceIdx j content.length
  (List.range content.length).foldl
    (fun best k =>
      if lo ≤ k ∧ k < hi ∧ content.get? k = some ' ' then (k : Int) else best)
    (-1)

/-- The `while start < len(content)` loop of `_split_by_character_count`.  The
snapped end can fall back to within `overlap` of `start`, in which case `start`
does not advance and the Python loop diverges; the model spends one unit of fuel
per iteration and returns `none` when the fuel runs out. -/
def splitCharAux (content : List Char) (maxSize overlap : Nat) :
    Nat → Int → Option (List (List Char))
  | 0, _ => none
  | fuel + 1, start =>
    if start < (content.length : Int) then
      let stop0 : Int := start + maxSize
      let stop : Int :=
        if stop0 < (content.length : Int) then
          let ls := pyRfindSpace content start stop0
          if start < ls then ls else stop0
        else stop0
      let chunk := pstrip (pySlice content start stop)
      match splitCharAux content maxSize overlap fuel
          (if 0 < overlap then stop - overlap else stop) with
      | none => none
      | some rest => some (if chunk ≠ [] then chunk :: rest else rest)
    else
      some []

/-- Model of `_split_by_character_count(content, max_chunk_size, overlap)`. -/
def splitByCharacterCount (fuel : Nat) (content : List Char)
    (maxSize overlap : Nat) : Option (List (List Char)) :=
  splitCharAux content maxSize overlap fuel 0

/-- Model of `_split_by_sentences(content, max_chunk_size, overlap)`.  The
`if not sentences` branch calls the character-count splitter; since `re.split`
always returns at least one piece the branch is unreachable
(`splitSentences_ne_nil` below), so the fuel and the `Option` default never
matter. -/
def splitBySentences (fuel : Nat) (content : List Char)
    (maxSize overlap : Nat) : List (List Char) :=
  let sentences := splitSentences content
  if sentences = [] then
    (splitByCharacterCount fuel content maxSize overlap).getD []
  else
    packSentences maxSize overlap sentences [] []

/-- Model of `_split_by_paragraphs(content, max_chunk_size, overlap)`: split on
blank-line boundaries, strip and drop empty paragraphs, greedily pack, then send
any over-long packed chunk through the sentence splitter. -/
def splitByParagraphs (fuel : Nat) (content : List Char)
    (maxSize overlap : Nat) : List (List Char) :=
  let paragraphs := ((splitParagraphs content).map pstrip).filter (· ≠ [])
  if paragraphs = [] then [content]
  else
    (packParagraphs maxSize overlap paragraphs [] []).flatMap fun c =>
      if c.length ≤ maxSize then [c] else splitBySentences fuel c maxSize overlap

/-- Model of `_split_by_soap_sections(content, max_chunk_size)`: find the SOAP header
positions; with fewer than two markers return `[]`, else slice from each marker
start to the next (or the end), strip, and drop empties.  (The `max_chunk_size`
parameter is unused in the source as well.) -/
def splitBySoapSections (content : List Char) (_maxSize : Nat) :
    List (List Char) :=
  let starts := soapScan content 0 (.scan true)
  if starts.length < 2 then []
  else
    ((starts.zip (starts.tail ++ [content.length])).map
      (fun se => pstrip ((content.drop se.1).take (se.2 - se.1)))).filter (· ≠ [])

/-- The `ValueError`s of `chunk_document`. -/
inductive ChunkError where
  | emptyContent
  | maxSizeTooSmall
  | overlapTooLarge
  deriving DecidableEq

/-- Model of `chunk_document(content, max_chunk_size, overlap, preserve_sections)`:
validate, strip, return whole if short, else try SOAP sections (recursing into
paragraphs for over-long sections) and otherwise paragraphs. -/
def chunkDocument (fuel : Nat) (content : List Char) (maxSize overlap : Nat)
    (preserveSections : Bool) : Except ChunkError (List (List Char)) :=
  if pstrip content = [] then .error .emptyContent
  else if maxSize < 100 then .error .maxSizeTooSmall
  else if maxSize ≤ overlap then .error .overlapTooLarge
  else
    let c := pstrip content
    if c.length ≤ maxSize then .ok [c]
    else if preserveSections then
      let soap := splitBySoapSections c maxSize
      if soap ≠ [] then
        .ok (soap.flatMap fun s =>
          if s.length ≤ maxSize then [s]
          else splitByParagraphs fuel s maxSize overlap)
      else .ok (splitByParagraphs fuel c maxSize overlap)
    else .ok (splitByParagraphs fuel c maxSize overlap)

/-! ## Embedding provider adapter (`app/services/embedding.py`)

The OpenAI client is modelled by an oracle `embedText` mapping a text to its
embedding vector; the provider returns one vector per submitted input, in order.
Provider-side failures (rate limit, timeout, connection, API error) are raised by
the client, not decided by this code, so they do not appear on the oracle path. -/

/-- The `ValueError`s raised by the embedding service itself. -/
inductive EmbedError where
  | emptyText
  | emptyList
  | allTextsEmpty
  | batchTooLarge
  deriving DecidableEq

/-- Model of `EmbeddingService.generate_embedding(text)`. -/
def generateEmbedding (embedText : List Char → List ℚ) (text : List Char) :
    Except EmbedError (List ℚ) :=
  if pstrip text = [] then .error .emptyText
  else .ok (embedText text)

/-- Model of `EmbeddingService.generate_embeddings_batch(texts)`: reject an empty list,
silently drop texts that are empty after trimming, reject an all-empty batch and
a batch of more than 100 valid texts, then embed the remaining texts in order. -/
def generateEmbeddingsBatch (embedText : List Char → List ℚ)
    (texts : List (List Char)) : Except EmbedError (List (List ℚ)) :=
  if texts = [] then .error .emptyList
  else
    let valid := texts.filter (fun t => pstrip t ≠ [])
    if valid = [] then .error .allTextsEmpty
    else if 100 < valid.length then .error .batchTooLarge
    else .ok (valid.map embedText)

/-! ## Data model and CRUD layer (`app/models/*.py`, `app/crud/*.py`)

Timestamps are modelled as integers; row `id` primary keys that no claim depends
on are dropped.  Document ids are unique in any database reachable through the
CRUD layer (primary-key constraint), which is what makes the `find?`-based inner
join below faithful. -/

structure Doc where
  id : Nat
  title : List Char
  content : List Char
  updatedAt : Int
  deriving DecidableEq

structure EmbRec where
  documentId : Nat
  chunkIndex : Nat
  chunkText : List Char
  embedding : List ℚ
  deriving DecidableEq

structure TokenUsage where
  promptTokens : Nat
  completionTokens : Nat
  totalTokens : Nat
  deriving DecidableEq

structure SummaryRec where
  documentId : Nat
  summaryText : List Char
  modelUsed : List Char
  tokenUsage : Option TokenUsage
  updatedAt : Int
  deriving DecidableEq

/-- The relational store: documents, document_embeddings, document_summaries. -/
structure DB where
  docs : List Doc
  embs : List EmbRec
  summaries : List SummaryRec
  deriving DecidableEq

/-- Model of `crud.document.get_document`. -/
def getDocument (db : DB) (documentId : Nat) : Option Doc :=
  db.docs.find? (fun d => d.id = documentId)

/-- Model of `crud.embedding.count_embeddings`. -/
def countEmbeddings (db : DB) : Nat :=
  db.embs.length

/-- Model of `crud.embedding.count_embeddings_by_document`. -/
def countEmbeddingsByDocument (db : DB) (documentId : Nat) : Nat :=
  (db.embs.filter (fun r => r.documentId = documentId)).length

/-- Model of `crud.embedding.document_has_embeddings`. -/
def documentHasEmbeddings (db : DB) (documentId : Nat) : Bool :=
  0 < countEmbeddingsByDocument db documentId

/-- Model of `crud.embedding.delete_embeddings_by_document` (bulk delete, committed):
returns the updated store and the deleted count. -/
def deleteEmbeddingsByDocument (db : DB) (documentId : Nat) : DB × Nat :=
  ({ db with embs := db.embs.filter (fun r => r.documentId ≠ documentId) },
   countEmbeddingsByDocument db documentId)

/-- Model of `crud.embedding.create_embeddings_batch` (bulk insert, committed). -/
def createEmbeddingsBatch (db : DB) (data : List EmbRec) : DB × List EmbRec :=
  ({ db with embs := db.embs ++ data }, data)

/-- Model of `crud.document_summary.get_summary_by_document_id`. -/
def getSummaryByDocumentId (db : DB) (documentId : Nat) : Option SummaryRec :=
  db.summaries.find? (fun s => s.documentId = documentId)

/-- Model of `crud.embedding.search_similar_chunks(db, query_embedding, limit,
similarity_threshold)`: the SQL query joins `document_embeddings` with
`documents`, filters by `cosine_distance(embedding, query) <= 2*(1 - threshold)`
when a threshold is given, orders by distance ascending, truncates to `limit`,
then maps each distance to the similarity `1 - distance/2`.  `dist` is PGVector's
`<=>` cosine-distance operator. -/
def searchSimilarChunks (dist : List ℚ → List ℚ → ℚ) (db : DB)
    (queryEmbedding : List ℚ) (limit : Nat) (similarityThreshold : Option ℚ) :
    List (EmbRec × ℚ) :=
  let joined := db.embs.filter (fun r => (getDocument db r.documentId).isSome)
  let filtered := match similarityThreshold with
    | none => joined
    | some t => joined.filter (fun r => dist r.embedding queryEmbedding ≤ 2 * (1 - t))
  let sorted := filtered.insertionSort
    (fun a b => dist a.embedding queryEmbedding ≤ dist b.embedding queryEmbedding)
  (sorted.take limit).map
    (fun r => (r, 1 - dist r.embedding queryEmbedding / 2))

/-! ## RAG orchestrator (`app/services/rag.py`) -/

/-- The failures of the RAG service.  `missingDocumentRow` models the
`AttributeError` the source would raise while building the context if a
retrieved chunk's document row were absent. -/
inductive RagError where
  | documentNotFound
  | chunkFailed (e : ChunkError)
  | embedFailed (e : EmbedError)
  | emptyQuestion
  | noEmbeddingsFound
  | missingDocumentRow
  deriving DecidableEq

/-- The result dictionary of `embed_document` (timing field elided). -/
structure EmbedResult where
  documentId : Nat
  documentTitle : List Char
  chunksCreated : Nat
  embeddingsCreated : Nat
  existingEmbeddings : Option Nat
  skipped : Bool
  deriving DecidableEq

/-- Model of `RAGService.embed_document(document_id, force)`: fetch the document, skip if
it already has embeddings and `force` is not set, delete existing embeddings
(committed) when forced, chunk, batch-embed, and bulk-insert with sequential
chunk indices.  The post-state is returned alongside the result so that a
failure after the committed delete leaves the delete visible. -/
def embedDocument (embedText : List Char → List ℚ) (fuel : Nat) (db : DB)
    (documentId : Nat) (force : Bool) (chunkSize chunkOverlap : Nat) :
    Except RagError EmbedResult × DB :=
  match getDocument db documentId with
  | none => (.error .documentNotFound, db)
  | some doc =>
    if ¬force ∧ documentHasEmbeddings db documentId then
      (.ok ⟨documentId, doc.title, 0, 0,
            some (countEmbeddingsByDocument db documentId), true⟩, db)
    else
      let db1 := if force then (deleteEmbeddingsByDocument db documentId).1 else db
      match chunkDocument fuel doc.content chunkSize chunkOverlap true with
      | .error e => (.error (.chunkFailed e), db1)
      | .ok chunks =>
        match generateEmbeddingsBatch embedText chunks with
        | .error e => (.error (.embedFailed e), db1)
        | .ok embeddings =>
          let data := ((chunks.zip embeddings).enum).map
            (fun p => EmbRec.mk documentId p.1 p.2.1 p.2.2)
          let db2 := (createEmbeddingsBatch db1 data).1
          (.ok ⟨documentId, doc.title, chunks.length, data.length, none, false⟩, db2)

/-- A chat-completion response (`ChatCompletion`): the generated text, the model
that served it, and the token usage. -/
structure LLMResponse where
  content : List Char
  model : List Char
  usage : TokenUsage
  deriving DecidableEq

/-- One entry of the `sources` list of `answer_question`. -/
structure SourceEntry where
  documentId : Nat
  documentTitle : List Char
  chunkIndex : Nat
  chunkText : List Char
  similarityScore : ℚ
  deriving DecidableEq

/-- The result dictionary of `answer_question` (timing fields elided). -/
structure AnswerResult where
  answer : List Char
  sources : List SourceEntry
  modelUsed : List Char
  tokenUsage : TokenUsage
  deriving DecidableEq

/-- The canned zero-result answer text of `answer_question`. -/
def noInfoAnswer : List Char :=
  "I couldn".data ++ [Char.ofNat 39] ++
    "t find any relevant information in the documents to answer your question.".data

/-- Model of `top_k = top_k or self.top_k`: Python `or` treats both `None` and `0` as
falsy. -/
def resolveTopK (topK : Option Nat) (defaultTopK : Nat) : Nat :=
  match topK with
  | none => defaultTopK
  | some 0 => defaultTopK
  | some k => k

/-- Model of `round(similarity_score, 4)`: round to 4 decimal places, ties to even
(Python's banker rounding, over exact rationals). -/
def pyRound4 (q : ℚ) : ℚ :=
  let y := q * 10000
  let f := ⌊y⌋
  let n := if y - f < 1/2 then f
           else if 1/2 < y - f then f + 1
           else if f % 2 = 0 then f else f + 1
  (n : ℚ) / 10000

/-- The per-chunk source-building loop of `answer_question`: each retrieved
chunk's document row is fetched and its title read without a `None` check. -/
def buildSources (db : DB) : List (EmbRec × ℚ) → Except RagError (List SourceEntry)
  | [] => .ok []
  | (r, score) :: rest =>
    match getDocument db r.documentId with
    | none => .error .missingDocumentRow
    | some d =>
      (buildSources db rest).map
        (fun tl => ⟨r.documentId, d.title, r.chunkIndex, r.chunkText,
                    pyRound4 score⟩ :: tl)

/-- Model of `RAGService.answer_question(question, top_k, similarity_threshold, model)`:
validate the question, guard the empty index, embed the question, search, return
the canned answer on zero results, else build sources and call the generation
model.  `llm` is the chat-completion oracle; it receives the composed context and
the question (the surrounding fixed instruction text is elided). -/
def answerQuestion (embedText : List Char → List ℚ)
    (dist : List ℚ → List ℚ → ℚ) (llm : List (EmbRec × ℚ) → List Char → LLMResponse)
    (defaultModel : List Char) (defaultTopK : Nat) (db : DB)
    (question : List Char) (topK : Option Nat) (similarityThreshold : Option ℚ)
    (model : Option (List Char)) : Except RagError AnswerResult :=
  if pstrip question = [] then .error .emptyQuestion
  else
    let k := resolveTopK topK defaultTopK
    if countEmbeddings db = 0 then .error .noEmbeddingsFound
    else
      match generateEmbedding embedText question with
      | .error e => .error (.embedFailed e)
      | .ok questionEmbedding =>
        let similarChunks :=
          searchSimilarChunks dist db questionEmbedding k similarityThreshold
        if similarChunks = [] then
          .ok ⟨noInfoAnswer, [], model.getD defaultModel, ⟨0, 0, 0⟩⟩
        else
          match buildSources db similarChunks with
          | .error e => .error e
          | .ok sources =>
            let resp := llm similarChunks question
            .ok ⟨pstrip resp.content, sources, resp.model, resp.usage⟩

/-! ## Summary cache (`app/services/document.py`) -/

/-- The dictionary returned by `check_summary_cache` on a fresh cache hit
(`token_usage or {}` maps a null usage to an empty one). -/
structure CacheEntry where
  summaryText : List Char
  modelUsed : List Char
  tokenUsage : TokenUsage
  fromCache : Bool
  deriving DecidableEq

/-- Model of `DocumentService.check_summary_cache(db, document_id)`: `none` if the
document is missing, the cache row is missing, or the cache row's last-modified
timestamp is strictly earlier than the document's. -/
def checkSummaryCache (db : DB) (documentId : Nat) : Option CacheEntry :=
  match getDocument db documentId with
  | none => none
  | some doc =>
    match getSummaryByDocumentId db documentId with
    | none => none
    | some s =>
      if doc.updatedAt ≤ s.updatedAt then
        some ⟨s.summaryText, s.modelUsed, s.tokenUsage.getD ⟨0, 0, 0⟩, true⟩
      else none

/-! ## Auxiliary predicates and concrete stores used by witnesses -/

/-- Does the post-delete part of `embed_document` (chunking, then batch
embedding) fail on this document content? -/
def embedPipelineFails (embedText : List Char → List ℚ) (fuel : Nat)
    (content : List Char) (chunkSize chunkOverlap : Nat) : Bool :=
  match chunkDocument fuel content chunkSize chunkOverlap true with
  | .error _ => true
  | .ok chunks =>
    match generateEmbeddingsBatch embedText chunks with
    | .error _ => true
    | .ok _ => false

/-- C2 witness: a two-document store where document 1 already has one
embedding; the call skips and the store is unchanged. -/
def c2db : DB :=
  { docs := [⟨1, ['t'], "hello world, some content.".data, 0⟩],
    embs := [⟨1, 0, "hello".data, [1, 2]⟩],
    summaries := [] }

/-- C9 witness: document 1 was edited down to whitespace-only content after
being embedded (two stored rows); a forced re-embed deletes both rows, then the
chunker rejects the empty content, leaving the document with zero embeddings. -/
def c9db : DB :=
  { docs := [⟨1, ['t'], "   ".data, 0⟩],
    embs := [⟨1, 0, "old".data, [1]⟩, ⟨1, 1, "older".data, [2]⟩],
    summaries := [] }

/-- A document with 101 SOAP section markers: its chunking yields 101 chunks,
one more than the provider batch cap. -/
def c5content : List Char :=
  (List.replicate 100 "S: a\n".data).flatten ++ "S: a".data

def c5db : DB :=
  { docs := [⟨1, ['t'], c5content, 0⟩], embs := [], summaries := [] }

/-- C3 witness data: one store with no embeddings, one with a single embedding
whose cosine distance to every query is 2 (so a 0.9 threshold filters it
out). -/
def c3dbEmpty : DB :=
  { docs := [⟨1, ['t'], ['x'], 0⟩], embs := [], summaries := [] }

def c3db : DB :=
  { docs := [⟨1, ['t'], ['x'], 0⟩], embs := [⟨1, 0, ['x'], [5]⟩],
    summaries := [] }

def c3llm : List (EmbRec × ℚ) → List Char → LLMResponse :=
  fun _ _ => ⟨['a'], ['m'], ⟨1, 1, 2⟩⟩

/-- C1 witness data: two embedded rows at cosine distances 0 and 2 from any
query (the distance oracle reads the stored vector's head). -/
def c1db : DB :=
  { docs := [⟨1, ['t'], ['x'], 0⟩, ⟨2, ['u'], ['y'], 0⟩],
    embs := [⟨1, 0, ['a'], [0]⟩, ⟨2, 0, ['b'], [2]⟩],
    summaries := [] }

def c1dist : List ℚ → List ℚ → ℚ := fun v _ => v.headD 0

/-- An input on which the character-count loop itself diverges: the only space
sits 60 characters in, the window end snaps back to it, and
`start = end - overlap` returns to position 10 forever. -/
def divergentContent : List Char :=
  List.replicate 60 'a' ++ ' ' :: List.replicate 200 'c'

/-- A store with a fresh cached summary for document 1 (cache written at time
7, document last modified at time 5). -/
def c7db : DB :=
  { docs := [⟨1, ['t'], ['x'], 5⟩],
    embs := [],
    summaries := [⟨1, ['s'], ['m'], some ⟨1, 2, 3⟩, 7⟩] }

/-! ## Basic lemmas about `pstrip` -/

theorem pstrip_length_le (l : List Char) : (pstrip l).length ≤ l.length := by
  unfold pstrip
  calc ((l.dropWhile isPySpace).reverse.dropWhile isPySpace).reverse.length
      = ((l.dropWhile isPySpace).reverse.dropWhile isPySpace).length := by
        rw [List.length_reverse]
    _ ≤ (l.dropWhile isPySpace).reverse.length :=
        (List.dropWhile_sublist _).length_le
    _ = (l.dropWhile isPySpace).length := by rw [List.length_reverse]
    _ ≤ l.length := (List.dropWhile_sublist _).length_le

theorem pstrip_eq_nil_iff (l : List Char) :
    pstrip l = [] ↔ ∀ c ∈ l, isPySpace c = true := by
  constructor
  · intro h c hc
    unfold pstrip at h
    rw [List.reverse_eq_nil_iff, List.dropWhile_eq_nil_iff] at h
    rcases (List.takeWhile_append_dropWhile (p := isPySpace) (l := l)) ▸ hc |>
      List.mem_append.mp with h1 | h1
    · exact List.mem_takeWhile_imp h1
    · exact h _ (by simpa using h1)
  · intro h
    unfold pstrip
    rw [List.dropWhile_eq_nil_iff.mpr h]
    simp

theorem pstrip_ne_nil_of_mem (l : List Char) (c : Char) (hc : c ∈ l)
    (hs : isPySpace c = false) : pstrip l ≠ [] := by
  intro h
  have := (pstrip_eq_nil_iff l).mp h c hc
  simp [this] at hs

/-! ## C7: summary-cache freshness -/

/-- C7: `check_summary_cache(document_id)` returns the cached entry exactly when
the document exists, a cache row exists, and the cache row's last-modified
timestamp is ≥ the document's; in every other case (missing document, missing
row, or strictly older cache row) it returns `none`. -/
theorem checkSummaryCache_fresh_iff (db : DB) (documentId : Nat) :
    (∀ e : CacheEntry,
      checkSummaryCache db documentId = some e ↔
        ∃ doc s, getDocument db documentId = some doc ∧
          getSummaryByDocumentId db documentId = some s ∧
          doc.updatedAt ≤ s.updatedAt ∧
          e = ⟨s.summaryText, s.modelUsed, s.tokenUsage.getD ⟨0, 0, 0⟩, true⟩) ∧
    (checkSummaryCache db documentId = none ↔
      getDocument db documentId = none ∨
      getSummaryByDocumentId db documentId = none ∨
      ∃ doc s, getDocument db documentId = some doc ∧
        getSummaryByDocumentId db documentId = some s ∧
        s.updatedAt < doc.updatedAt) := by
  unfold checkSummaryCache
  cases hd : getDocument db documentId with
  | none => simp
  | some doc =>
    cases hs : getSummaryByDocumentId db documentId with
    | none => simp
    | some s =>
      by_cases hts : doc.updatedAt ≤ s.updatedAt
      · refine ⟨fun e => ?_, ?_⟩
        · simp only [if_pos hts, Option.some.injEq]
          constructor
          · intro he
            exact ⟨doc, s, rfl, rfl, hts, he.symm⟩
          · rintro ⟨d', s', hd', hs', _, he⟩
            obtain rfl := hd'
            obtain rfl := hs'
            exact he.symm
        · simp only [if_pos hts]
          constructor
          · intro h
            exact absurd h (by simp)
          · rintro (h | h | ⟨d', s', hd', hs', hlt⟩)
            · exact absurd h (by simp)
            · exact absurd h (by simp)
            · obtain rfl := Option.some_inj.mp hd'
              obtain rfl := Option.some_inj.mp hs'
              exact absurd hlt (not_lt.mpr hts)
      · refine ⟨fun e => ?_, ?_⟩
        · simp only [if_neg hts]
          constructor
          · intro h
            exact absurd h (by simp)
          · rintro ⟨d', s', hd', hs', hle, _⟩
            obtain rfl := Option.some_inj.mp hd'
            obtain rfl := Option.some_inj.mp hs'
            exact absurd hle hts
        · simp only [if_neg hts, true_iff]
          exact Or.inr (Or.inr ⟨doc, s, rfl, rfl, lt_of_not_le hts⟩)

/-! ## C8: batch embedding order/arity -/

/-- C8 counterexample: `generate_embeddings_batch` accepts the two-element list
`["", "a"]` (it raises no error) yet returns a single vector, because empty
texts are silently filtered out before the provider call; so the result is not
one vector per input text and the i-th vector does not correspond to the i-th
input. -/
theorem generateEmbeddingsBatch_drops_empty_texts :
    generateEmbeddingsBatch (fun _ => [(1 : ℚ)]) [[], ['a']] = .ok [[1]] ∧
    ([([] : List Char), ['a']].length = 2) := by
  constructor
  · rfl
  · rfl

/-- C8 amended: for every input list accepted by `generate_embeddings_batch`,
the result has exactly one vector per **non-blank** input text, order-preserving
(`out = map embed (filter non-blank texts)`); when every input text is non-blank
this is one vector per input text with the i-th vector embedding the i-th
text. -/
theorem generateEmbeddingsBatch_ordered (embedText : List Char → List ℚ)
    (texts : List (List Char)) (out : List (List ℚ))
    (h : generateEmbeddingsBatch embedText texts = .ok out) :
    out = (texts.filter (fun t => pstrip t ≠ [])).map embedText ∧
    ((∀ t ∈ texts, pstrip t ≠ []) → out = texts.map embedText) := by
  unfold generateEmbeddingsBatch at h
  by_cases h0 : texts = []
  · simp [h0] at h
  · rw [if_neg h0] at h
    by_cases h1 : texts.filter (fun t => pstrip t ≠ []) = []
    · simp only [h1, if_pos] at h
      cases h
    · rw [if_neg h1] at h
      by_cases h2 : 100 < (texts.filter (fun t => pstrip t ≠ [])).length
      · rw [if_pos h2] at h
        cases h
      · rw [if_neg h2] at h
        have h' : (texts.filter (fun t => pstrip t ≠ [])).map embedText = out := by
          injection h
        refine ⟨h'.symm, fun hall => ?_⟩
        have hf : texts.filter (fun t => pstrip t ≠ []) = texts :=
          List.filter_eq_self.mpr (fun a ha => by simpa using hall a ha)
        rw [← h', hf]

/-- C8 witness: a concrete all-non-blank batch is embedded one-to-one in
order. -/
theorem generateEmbeddingsBatch_ordered_witness :
    generateEmbeddingsBatch (fun t => [(t.length : ℚ)]) [['a'], ['b', 'c']] =
      .ok [[1], [2]] ∧
    ([[(1 : ℚ)], [2]] = [['a'], ['b', 'c']].map (fun t => [(t.length : ℚ)])) := by
  refine ⟨by rfl, ?_⟩
  exact (generateEmbeddingsBatch_ordered (fun t => [(t.length : ℚ)])
    [['a'], ['b', 'c']] [[1], [2]] (by rfl)).2 (by decide)

/-! ## C4: the sentence tier's character-count fall-through is dead code -/

/-- The sentence splitter never returns an empty list (`re.split` always returns
at least one piece), so the `if not sentences` fall-through of
`_split_by_sentences` into `_split_by_character_count` can never be taken. -/
theorem sentSplitAux_ne_nil (l : List Char) (mode : SentMode)
    (acc : List Char) : sentSplitAux l mode acc ≠ [] := by
  induction l generalizing mode acc with
  | nil => cases mode <;> simp [sentSplitAux]
  | cons c rest ih =>
    cases mode with
    | normal prev =>
      simp only [sentSplitAux]
      split
      · simp
      · exact ih _ _
    | skipWs =>
      simp only [sentSplitAux]
      split
      · exact ih _ _
      · exact ih _ _

set_option maxRecDepth 10000 in
/-- C4: a segment with no sentence boundary that is longer than `max_size` is
returned by `chunk_document` as a single over-long chunk; it is **not** passed
to the fixed-width tier (the `if not sentences` guard is never true because
`re.split` always returns at least one piece). 150 non-space characters with
`max_chunk_size=100, overlap=10` come back whole. -/
theorem chunkDocument_no_boundary_single_chunk :
    chunkDocument 0 (List.replicate 150 'x') 100 10 true =
      .ok [List.replicate 150 'x'] ∧
    (List.replicate 150 'x').length = 150 := by
  constructor
  · decide
  · simp

/-! ## Lemmas about the CRUD layer and `embed_document` -/

theorem getDocument_set_embs (db : DB) (embs' : List EmbRec) (documentId : Nat) :
    getDocument { db with embs := embs' } documentId = getDocument db documentId :=
  rfl

theorem countEmbeddingsByDocument_append (db : DB) (data : List EmbRec)
    (documentId : Nat) :
    countEmbeddingsByDocument { db with embs := db.embs ++ data } documentId =
      countEmbeddingsByDocument db documentId +
        (data.filter (fun r => r.documentId = documentId)).length := by
  simp [countEmbeddingsByDocument, List.filter_append]

theorem countEmbeddingsByDocument_delete (db : DB) (documentId : Nat) :
    countEmbeddingsByDocument (deleteEmbeddingsByDocument db documentId).1
      documentId = 0 := by
  simp only [countEmbeddingsByDocument, deleteEmbeddingsByDocument,
    List.filter_filter, List.length_eq_zero]
  apply List.filter_eq_nil_iff.mpr
  intro r _
  by_cases h : r.documentId = documentId <;> simp [h]

theorem documentHasEmbeddings_eq_true_iff (db : DB) (documentId : Nat) :
    documentHasEmbeddings db documentId = true ↔
      0 < countEmbeddingsByDocument db documentId := by
  simp [documentHasEmbeddings]

theorem genBatch_ok_iff (embedText : List Char → List ℚ)
    (texts : List (List Char)) (out : List (List ℚ)) :
    generateEmbeddingsBatch embedText texts = .ok out ↔
      texts ≠ [] ∧ texts.filter (fun t => pstrip t ≠ []) ≠ [] ∧
      (texts.filter (fun t => pstrip t ≠ [])).length ≤ 100 ∧
      out = (texts.filter (fun t => pstrip t ≠ [])).map embedText := by
  unfold generateEmbeddingsBatch
  by_cases h0 : texts = []
  · simp [h0]
  · rw [if_neg h0]
    by_cases h1 : texts.filter (fun t => pstrip t ≠ []) = []
    · rw [if_pos h1]
      constructor
      · intro h
        exact Except.noConfusion h
      · rintro ⟨-, h1', -, -⟩
        exact absurd h1 h1'
    · rw [if_neg h1]
      by_cases h2 : 100 < (texts.filter (fun t => pstrip t ≠ [])).length
      · rw [if_pos h2]
        constructor
        · intro h
          exact Except.noConfusion h
        · rintro ⟨-, -, hle, -⟩
          omega
      · rw [if_neg h2]
        constructor
        · intro h
          injection h with h
          exact ⟨h0, h1, by omega, h.symm⟩
        · rintro ⟨-, -, -, h⟩
          rw [h]

/-- Model of `embed_document` without `force` on a document that already has embeddings:
immediate skip, zero counts, state untouched. -/
theorem embedDocument_skips (embedText : List Char → List ℚ) (fuel : Nat)
    (db : DB) (documentId chunkSize chunkOverlap : Nat) (doc : Doc)
    (h0 : getDocument db documentId = some doc)
    (hcount : 0 < countEmbeddingsByDocument db documentId) :
    embedDocument embedText fuel db documentId false chunkSize chunkOverlap =
      (.ok ⟨documentId, doc.title, 0, 0,
            some (countEmbeddingsByDocument db documentId), true⟩, db) := by
  unfold embedDocument
  rw [h0]
  have hcond : ¬(false = true) ∧ documentHasEmbeddings db documentId = true :=
    ⟨by simp, (documentHasEmbeddings_eq_true_iff db documentId).mpr hcount⟩
  dsimp only
  rw [if_pos hcond]

/-! ## C2: idempotent embedding -/

/-- C2: `embed_document` is idempotent without `force`: on a document that
already has at least one stored embedding the call returns immediately with
`skipped=true` and zero counts and leaves the store untouched; and after any
successful call, a second call without `force` is such a skip and leaves the
store — hence the stored embedding count — exactly as the first call left
it. -/
theorem embedDocument_idempotent (embedText : List Char → List ℚ) (fuel : Nat)
    (db : DB) (documentId chunkSize chunkOverlap : Nat) (doc : Doc)
    (h0 : getDocument db documentId = some doc) :
    (0 < countEmbeddingsByDocument db documentId →
      embedDocument embedText fuel db documentId false chunkSize chunkOverlap =
        (.ok ⟨documentId, doc.title, 0, 0,
              some (countEmbeddingsByDocument db documentId), true⟩, db)) ∧
    (∀ r1 db1,
      embedDocument embedText fuel db documentId false chunkSize chunkOverlap =
        (.ok r1, db1) →
      embedDocument embedText fuel db1 documentId false chunkSize chunkOverlap =
        (.ok ⟨documentId, doc.title, 0, 0,
              some (countEmbeddingsByDocument db1 documentId), true⟩, db1) ∧
      countEmbeddingsByDocument
        (embedDocument embedText fuel db1 documentId false chunkSize
          chunkOverlap).2 documentId = countEmbeddingsByDocument db1 documentId) := by
  refine ⟨fun hcount => embedDocument_skips _ _ _ _ _ _ _ h0 hcount, ?_⟩
  intro r1 db1 h1
  have key : getDocument db1 documentId = some doc ∧
      0 < countEmbeddingsByDocument db1 documentId := by
    by_cases hskip : 0 < countEmbeddingsByDocument db documentId
    · rw [embedDocument_skips embedText fuel db documentId chunkSize
        chunkOverlap doc h0 hskip] at h1
      have hdb : db = db1 := congrArg Prod.snd h1
      subst hdb
      exact ⟨h0, hskip⟩
    · have hcnt0 : countEmbeddingsByDocument db documentId = 0 := by omega
      unfold embedDocument at h1
      rw [h0] at h1
      dsimp only at h1
      have hcond : ¬(¬(false = true) ∧
          documentHasEmbeddings db documentId = true) := by
        simp [documentHasEmbeddings_eq_true_iff, hcnt0]
      rw [if_neg hcond] at h1
      cases hch : chunkDocument fuel doc.content chunkSize chunkOverlap true with
      | error e =>
        rw [hch] at h1
        exact absurd (congrArg Prod.fst h1) (by simp)
      | ok chunks =>
        rw [hch] at h1
        dsimp only at h1
        cases hgb : generateEmbeddingsBatch embedText chunks with
        | error e =>
          rw [hgb] at h1
          exact absurd (congrArg Prod.fst h1) (by simp)
        | ok embeddings =>
          rw [hgb] at h1
          dsimp only at h1
          have hdb1 :
              ({ db with embs := db.embs ++
                  ((chunks.zip embeddings).enum.map
                    (fun p => EmbRec.mk documentId p.1 p.2.1 p.2.2)) } : DB) =
                db1 := congrArg Prod.snd h1
          obtain ⟨-, hvalid, -, hout⟩ := (genBatch_ok_iff embedText chunks
            embeddings).mp hgb
          constructor
          · rw [← hdb1]
            exact h0
          · rw [← hdb1, countEmbeddingsByDocument_append, hcnt0]
            have hflt :
                ((chunks.zip embeddings).enum.map
                  (fun p => EmbRec.mk documentId p.1 p.2.1 p.2.2)).filter
                    (fun r => r.documentId = documentId) =
                (chunks.zip embeddings).enum.map
                  (fun p => EmbRec.mk documentId p.1 p.2.1 p.2.2) := by
              apply List.filter_eq_self.mpr
              intro a ha
              obtain ⟨p, -, rfl⟩ := List.mem_map.mp ha
              simp
            rw [hflt]
            have hlen1 : 0 < (chunks.filter (fun t => pstrip t ≠ [])).length :=
              List.length_pos.mpr hvalid
            have hlen2 : (chunks.filter (fun t => pstrip t ≠ [])).length ≤
                chunks.length := List.length_filter_le _ _
            have hlen3 : embeddings.length =
                (chunks.filter (fun t => pstrip t ≠ [])).length := by
              rw [hout, List.length_map]
            simp only [List.length_map, List.enum_length, List.length_zip]
            omega
  obtain ⟨hgd, hcnt⟩ := key
  refine ⟨embedDocument_skips _ _ _ _ _ _ _ hgd hcnt, ?_⟩
  rw [embedDocument_skips _ _ _ _ _ _ _ hgd hcnt]

theorem embedDocument_idempotent_witness :
    0 < countEmbeddingsByDocument c2db 1 ∧
    embedDocument (fun _ => [(1 : ℚ)]) 0 c2db 1 false 800 50 =
      (.ok ⟨1, ['t'], 0, 0, some 1, true⟩, c2db) :=
  ⟨by decide,
   (embedDocument_idempotent (fun _ => [(1 : ℚ)]) 0 c2db 1 800 50
      ⟨1, ['t'], "hello world, some content.".data, 0⟩ (by rfl)).1 (by decide)⟩

/-! ## C9: forced re-embedding commits its delete before it can fail -/

/-- C9: forced re-embedding is not atomic with respect to errors.  If the
document has stored embeddings and the chunking or batch-embedding step after
the committed delete fails, `embed_document(force=true)` returns an error and
the document is left with zero stored embeddings — the prior state is not
restored. -/
theorem embedDocument_force_commits_delete (embedText : List Char → List ℚ)
    (fuel : Nat) (db : DB) (documentId chunkSize chunkOverlap : Nat) (doc : Doc)
    (h0 : getDocument db documentId = some doc)
    (h1 : 0 < countEmbeddingsByDocument db documentId)
    (h2 : embedPipelineFails embedText fuel doc.content chunkSize chunkOverlap =
      true) :
    (∃ e, (embedDocument embedText fuel db documentId true chunkSize
        chunkOverlap).1 = .error e) ∧
    countEmbeddingsByDocument
      (embedDocument embedText fuel db documentId true chunkSize
        chunkOverlap).2 documentId = 0 := by
  unfold embedDocument
  rw [h0]
  dsimp only
  rw [if_neg (by simp)]
  unfold embedPipelineFails at h2
  cases hch : chunkDocument fuel doc.content chunkSize chunkOverlap true with
  | error e =>
    exact ⟨⟨.chunkFailed e, rfl⟩, countEmbeddingsByDocument_delete db documentId⟩
  | ok chunks =>
    rw [hch] at h2
    dsimp only at h2 ⊢
    cases hgb : generateEmbeddingsBatch embedText chunks with
    | error e =>
      exact ⟨⟨.embedFailed e, rfl⟩, countEmbeddingsByDocument_delete db documentId⟩
    | ok embeddings =>
      rw [hgb] at h2
      exact absurd h2 (by simp)

theorem embedDocument_force_commits_delete_witness :
    0 < countEmbeddingsByDocument c9db 1 ∧
    embedPipelineFails (fun _ => [(1 : ℚ)]) 0 "   ".data 800 50 = true ∧
    ((∃ e, (embedDocument (fun _ => [(1 : ℚ)]) 0 c9db 1 true 800 50).1 =
        .error e) ∧
      countEmbeddingsByDocument
        (embedDocument (fun _ => [(1 : ℚ)]) 0 c9db 1 true 800 50).2 1 = 0) :=
  ⟨by decide, by decide,
   embedDocument_force_commits_delete (fun _ => [(1 : ℚ)]) 0 c9db 1 800 50
     ⟨1, ['t'], "   ".data, 0⟩ (by rfl) (by decide) (by decide)⟩

/-! ## C5: no transparent batch splitting above the provider cap -/

set_option maxRecDepth 100000 in
/-- C5 counterexample: a document whose chunking produces 101 chunks (above the
100-text provider cap) makes `embed_document` fail with the batch-size
`ValueError`; the chunk list is **not** split into several provider calls. -/
theorem embedDocument_batch_cap_error :
    (chunkDocument 0 c5content 100 0 true).map List.length = .ok 101 ∧
    embedDocument (fun _ => [(1 : ℚ)]) 0 c5db 1 false 100 0 =
      (.error (.embedFailed .batchTooLarge), c5db) := by
  constructor
  · decide
  · decide

/-- C5 amended: when chunking produces more than 100 non-blank chunks,
`embed_document` propagates the embedding service's batch-size error (no
transparent splitting into multiple provider calls happens), and the store is
left unchanged on the non-forced path. -/
theorem embedDocument_no_batch_splitting (embedText : List Char → List ℚ)
    (fuel : Nat) (db : DB) (documentId chunkSize chunkOverlap : Nat) (doc : Doc)
    (chunks : List (List Char))
    (h0 : getDocument db documentId = some doc)
    (h1 : countEmbeddingsByDocument db documentId = 0)
    (h2 : chunkDocument fuel doc.content chunkSize chunkOverlap true = .ok chunks)
    (h3 : 100 < (chunks.filter (fun t => pstrip t ≠ [])).length) :
    embedDocument embedText fuel db documentId false chunkSize chunkOverlap =
      (.error (.embedFailed .batchTooLarge), db) := by
  have hne : chunks ≠ [] := by
    intro h
    rw [h] at h3
    simp at h3
  have hvne : chunks.filter (fun t => pstrip t ≠ []) ≠ [] := by
    intro h
    rw [h] at h3
    simp at h3
  have hgb : generateEmbeddingsBatch embedText chunks =
      .error .batchTooLarge := by
    unfold generateEmbeddingsBatch
    rw [if_neg hne]
    dsimp only
    rw [if_neg hvne, if_pos h3]
  unfold embedDocument
  rw [h0]
  dsimp only
  rw [if_neg (by simp [documentHasEmbeddings_eq_true_iff, h1])]
  rw [h2]
  dsimp only
  rw [hgb]
  rfl

set_option maxRecDepth 100000 in
/-- C5 witness: the amended statement applied to the concrete 101-section
document. -/
theorem embedDocument_no_batch_splitting_witness :
    embedDocument (fun _ => [(2 : ℚ)]) 0 c5db 1 false 100 0 =
      (.error (.embedFailed .batchTooLarge), c5db) :=
  embedDocument_no_batch_splitting (fun _ => [(2 : ℚ)]) 0 c5db 1 100 0
    ⟨1, ['t'], c5content, 0⟩ (List.replicate 101 "S: a".data)
    (by rfl) (by decide) (by decide) (by decide)

/-! ## C3: the empty-index guard of `answer_question` -/

/-- The source-building loop can only fail with `missingDocumentRow` (the
modelled `AttributeError`). -/
theorem buildSources_error_eq (db : DB) (l : List (EmbRec × ℚ)) (e : RagError)
    (h : buildSources db l = .error e) : e = .missingDocumentRow := by
  induction l with
  | nil => exact absurd h (by simp [buildSources])
  | cons p rest ih =>
    obtain ⟨r, score⟩ := p
    unfold buildSources at h
    cases hg : getDocument db r.documentId with
    | none =>
      rw [hg] at h
      dsimp only at h
      injection h with h
      exact h.symm
    | some d =>
      rw [hg] at h
      dsimp only at h
      cases hbs : buildSources db rest with
      | error e2 =>
        rw [hbs] at h
        dsimp only [Except.map] at h
        injection h with h
        exact ih (h ▸ hbs)
      | ok tl =>
        rw [hbs] at h
        exact absurd h (by simp [Except.map])

/-- C3: with a non-empty question, `answer_question` fails with
`NoEmbeddingsFoundError` exactly when the store holds zero embeddings overall;
when at least one embedding exists and the similarity search returns no
results, it does not fail and instead returns the canned
"no relevant information" answer with an empty source list and zero token
usage. -/
theorem answerQuestion_empty_index_guard (embedText : List Char → List ℚ)
    (dist : List ℚ → List ℚ → ℚ) (llm : List (EmbRec × ℚ) → List Char → LLMResponse)
    (defaultModel : List Char) (defaultTopK : Nat) (db : DB)
    (question : List Char) (topK : Option Nat) (similarityThreshold : Option ℚ)
    (model : Option (List Char))
    (hq : pstrip question ≠ []) :
    (answerQuestion embedText dist llm defaultModel defaultTopK db question
        topK similarityThreshold model = .error .noEmbeddingsFound ↔
      countEmbeddings db = 0) ∧
    (countEmbeddings db ≠ 0 →
      searchSimilarChunks dist db (embedText question)
        (resolveTopK topK defaultTopK) similarityThreshold = [] →
      answerQuestion embedText dist llm defaultModel defaultTopK db question
        topK similarityThreshold model =
        .ok ⟨noInfoAnswer, [], model.getD defaultModel, ⟨0, 0, 0⟩⟩) := by
  unfold answerQuestion
  rw [if_neg hq]
  have hge : generateEmbedding embedText question = .ok (embedText question) := by
    unfold generateEmbedding
    rw [if_neg hq]
  by_cases hc : countEmbeddings db = 0
  · rw [if_pos hc]
    exact ⟨⟨fun _ => hc, fun _ => rfl⟩, fun hne _ => absurd hc hne⟩
  · rw [if_neg hc]
    dsimp only
    rw [hge]
    dsimp only
    constructor
    · constructor
      · intro h
        by_cases hres : searchSimilarChunks dist db (embedText question)
            (resolveTopK topK defaultTopK) similarityThreshold = []
        · rw [if_pos hres] at h
          exact Except.noConfusion h
        · rw [if_neg hres] at h
          cases hbs : buildSources db (searchSimilarChunks dist db
              (embedText question) (resolveTopK topK defaultTopK)
              similarityThreshold) with
          | error e =>
            rw [hbs] at h
            dsimp only at h
            injection h with h
            exact absurd (h ▸ buildSources_error_eq _ _ _ hbs) (by simp)
          | ok sources =>
            rw [hbs] at h
            exact Except.noConfusion h
      · intro h
        exact absurd h hc
    · intro _ hres
      rw [if_pos hres]

theorem answerQuestion_empty_index_guard_witness :
    pstrip ['q'] ≠ [] ∧
    answerQuestion (fun _ => [(1 : ℚ)]) (fun _ _ => 2) c3llm ['m'] 3 c3dbEmpty
      ['q'] none none none = .error .noEmbeddingsFound ∧
    answerQuestion (fun _ => [(1 : ℚ)]) (fun _ _ => 2) c3llm ['m'] 3 c3db
      ['q'] none (some (9 / 10)) none =
      .ok ⟨noInfoAnswer, [], ['m'], ⟨0, 0, 0⟩⟩ :=
  ⟨by decide,
   (answerQuestion_empty_index_guard (fun _ => [(1 : ℚ)]) (fun _ _ => 2) c3llm
      ['m'] 3 c3dbEmpty ['q'] none none none (by decide)).1.mpr (by rfl),
   (answerQuestion_empty_index_guard (fun _ => [(1 : ℚ)]) (fun _ _ => 2) c3llm
      ['m'] 3 c3db ['q'] none (some (9 / 10)) none (by decide)).2
     (by decide)
     (by
       simp only [searchSimilarChunks, c3db, getDocument]
       norm_num [List.filter, List.insertionSort])⟩

/-! ## C1: similarity search scores, ordering, filtering, truncation -/

/-- Behaviour of the sort / truncate / score part of the search query, for an
arbitrary filtered row set `F`. -/
theorem searchPost_spec (dist : List ℚ → List ℚ → ℚ) (q : List ℚ)
    (F : List EmbRec) (limit : Nat) :
    (∀ p ∈ (((F.insertionSort
        (fun a b => dist a.embedding q ≤ dist b.embedding q)).take limit).map
        (fun r => (r, 1 - dist r.embedding q / 2))),
      p.2 = 1 - dist p.1.embedding q / 2 ∧ p.1 ∈ F) ∧
    ((((F.insertionSort
        (fun a b => dist a.embedding q ≤ dist b.embedding q)).take limit).map
        (fun r => (r, 1 - dist r.embedding q / 2))).map Prod.snd).Pairwise
      (fun a b => b ≤ a) ∧
    (((F.insertionSort
        (fun a b => dist a.embedding q ≤ dist b.embedding q)).take limit).map
        (fun r => (r, 1 - dist r.embedding q / 2))).length =
      min limit F.length := by
  haveI : IsTotal EmbRec
      (fun a b => dist a.embedding q ≤ dist b.embedding q) :=
    ⟨fun a b => le_total _ _⟩
  haveI : IsTrans EmbRec
      (fun a b => dist a.embedding q ≤ dist b.embedding q) :=
    ⟨fun _ _ _ hab hbc => le_trans hab hbc⟩
  refine ⟨?_, ?_, ?_⟩
  · intro p hp
    obtain ⟨r, hr, rfl⟩ := List.mem_map.mp hp
    refine ⟨rfl, ?_⟩
    have hmem : r ∈ F.insertionSort
        (fun a b => dist a.embedding q ≤ dist b.embedding q) :=
      (List.take_sublist _ _).subset hr
    exact (List.perm_insertionSort _ _).mem_iff.mp hmem
  · have hs : (F.insertionSort
        (fun a b => dist a.embedding q ≤ dist b.embedding q)).Pairwise
        (fun a b => dist a.embedding q ≤ dist b.embedding q) :=
      List.sorted_insertionSort _ F
    have hst := List.Pairwise.sublist (List.take_sublist limit _) hs
    rw [List.map_map, List.pairwise_map]
    refine hst.imp ?_
    intro a b hab
    dsimp only [Function.comp]
    have h2 : dist a.embedding q / 2 ≤ dist b.embedding q / 2 := by linarith
    linarith
  · rw [List.length_map, List.length_take, (List.perm_insertionSort _ _).length_eq]

/-- C1: every result of `search_similar_chunks` carries the similarity score
`1 - distance/2`; results are ordered by descending similarity and truncated to
`limit`; and with a threshold `t` exactly the stored rows with
`distance ≤ 2*(1 - t)` are the candidates — the filter is applied before the
limit, so the result length is `min limit (number of candidate rows)`, not a
post-filtered shorter list.  (The hypothesis is referential integrity of the
join: every embedding row's document exists.) -/
theorem searchSimilarChunks_spec (dist : List ℚ → List ℚ → ℚ) (db : DB)
    (queryEmbedding : List ℚ) (limit : Nat) (similarityThreshold : Option ℚ)
    (hjoin : ∀ r ∈ db.embs, (getDocument db r.documentId).isSome) :
    (∀ p ∈ searchSimilarChunks dist db queryEmbedding limit similarityThreshold,
      p.2 = 1 - dist p.1.embedding queryEmbedding / 2) ∧
    ((searchSimilarChunks dist db queryEmbedding limit
        similarityThreshold).map Prod.snd).Pairwise (fun a b => b ≤ a) ∧
    (searchSimilarChunks dist db queryEmbedding limit
        similarityThreshold).length =
      min limit (db.embs.filter (fun r =>
        match similarityThreshold with
        | none => true
        | some t =>
          decide (dist r.embedding queryEmbedding ≤ 2 * (1 - t)))).length ∧
    (∀ t, similarityThreshold = some t →
      ∀ p ∈ searchSimilarChunks dist db queryEmbedding limit
          similarityThreshold,
        dist p.1.embedding queryEmbedding ≤ 2 * (1 - t)) := by
  have hjoined : db.embs.filter
      (fun r => (getDocument db r.documentId).isSome) = db.embs :=
    List.filter_eq_self.mpr (fun r hr => by simpa using hjoin r hr)
  cases similarityThreshold with
  | none =>
    have hmain : searchSimilarChunks dist db queryEmbedding limit none =
        ((db.embs.insertionSort
          (fun a b => dist a.embedding queryEmbedding ≤
            dist b.embedding queryEmbedding)).take limit).map
          (fun r => (r, 1 - dist r.embedding queryEmbedding / 2)) := by
      simp only [searchSimilarChunks, hjoined]
    obtain ⟨h1, h2, h3⟩ := searchPost_spec dist queryEmbedding db.embs limit
    rw [hmain]
    refine ⟨fun p hp => (h1 p hp).1, h2, ?_, ?_⟩
    · rw [h3]
      simp
    · intro t ht
      exact absurd ht (by simp)
  | some t0 =>
    have hmain : searchSimilarChunks dist db queryEmbedding limit (some t0) =
        (((db.embs.filter (fun r => dist r.embedding queryEmbedding ≤
            2 * (1 - t0))).insertionSort
          (fun a b => dist a.embedding queryEmbedding ≤
            dist b.embedding queryEmbedding)).take limit).map
          (fun r => (r, 1 - dist r.embedding queryEmbedding / 2)) := by
      simp only [searchSimilarChunks, hjoined]
    obtain ⟨h1, h2, h3⟩ := searchPost_spec dist queryEmbedding
      (db.embs.filter (fun r => dist r.embedding queryEmbedding ≤
        2 * (1 - t0))) limit
    rw [hmain]
    refine ⟨fun p hp => (h1 p hp).1, h2, ?_, ?_⟩
    · rw [h3]
    · intro t ht p hp
      obtain rfl : t0 = t := by injection ht
      have := (h1 p hp).2
      exact of_decide_eq_true (List.mem_filter.mp this).2

theorem searchSimilarChunks_spec_witness :
    (∀ r ∈ c1db.embs, (getDocument c1db r.documentId).isSome) ∧
    (searchSimilarChunks c1dist c1db [9] 5 (some (1 / 2))).length =
      min 5 (c1db.embs.filter (fun r =>
        match (some (1 / 2) : Option ℚ) with
        | none => true
        | some t => decide (c1dist r.embedding [9] ≤ 2 * (1 - t)))).length :=
  ⟨by decide,
   (searchSimilarChunks_spec c1dist c1db [9] 5 (some (1 / 2))
      (by decide)).2.2.1⟩

/-! ## C10: termination of `chunk_document` -/

/-- The sentence tier never consults the character-count splitter, so its
result does not depend on the fuel. -/
theorem splitBySentences_fuel_indep (fuel fuel' : Nat) (content : List Char)
    (maxSize overlap : Nat) :
    splitBySentences fuel content maxSize overlap =
      splitBySentences fuel' content maxSize overlap := by
  have h : ¬ splitSentences content = [] := by
    unfold splitSentences
    exact sentSplitAux_ne_nil content (.normal none) []
  unfold splitBySentences
  rw [if_neg h, if_neg h]

theorem splitByParagraphs_fuel_indep (fuel fuel' : Nat) (content : List Char)
    (maxSize overlap : Nat) :
    splitByParagraphs fuel content maxSize overlap =
      splitByParagraphs fuel' content maxSize overlap := by
  unfold splitByParagraphs
  by_cases hp : ((splitParagraphs content).map pstrip).filter (· ≠ []) = []
  · rw [if_pos hp, if_pos hp]
  · rw [if_neg hp, if_neg hp]
    congr 1
    funext c
    by_cases hc : c.length ≤ maxSize
    · rw [if_pos hc, if_pos hc]
    · rw [if_neg hc, if_neg hc]
      exact splitBySentences_fuel_indep fuel fuel' c maxSize overlap

theorem chunkDocument_fuel_indep (fuel fuel' : Nat) (content : List Char)
    (maxSize overlap : Nat) (preserveSections : Bool) :
    chunkDocument fuel content maxSize overlap preserveSections =
      chunkDocument fuel' content maxSize overlap preserveSections := by
  unfold chunkDocument
  by_cases h1 : pstrip content = []
  · rw [if_pos h1, if_pos h1]
  · rw [if_neg h1, if_neg h1]
    by_cases h2 : maxSize < 100
    · rw [if_pos h2, if_pos h2]
    · rw [if_neg h2, if_neg h2]
      by_cases h3 : maxSize ≤ overlap
      · rw [if_pos h3, if_pos h3]
      · rw [if_neg h3, if_neg h3]
        dsimp only
        by_cases h4 : (pstrip content).length ≤ maxSize
        · rw [if_pos h4, if_pos h4]
        · rw [if_neg h4, if_neg h4]
          cases preserveSections with
          | false =>
            simp only [Bool.false_eq_true, if_false]
            rw [splitByParagraphs_fuel_indep fuel fuel']
          | true =>
            simp only [if_true]
            by_cases h5 : splitBySoapSections (pstrip content) maxSize ≠ []
            · rw [if_pos h5, if_pos h5]
              congr 1
              congr 1
              funext s
              by_cases h6 : s.length ≤ maxSize
              · rw [if_pos h6, if_pos h6]
              · rw [if_neg h6, if_neg h6]
                exact splitByParagraphs_fuel_indep fuel fuel' s maxSize overlap
            · rw [if_neg h5, if_neg h5]
              rw [splitByParagraphs_fuel_indep fuel fuel']

/-- Under the preconditions every branch of `chunk_document` returns a list. -/
theorem chunkDocument_ok (fuel : Nat) (content : List Char)
    (maxSize overlap : Nat) (preserveSections : Bool)
    (h1 : pstrip content ≠ []) (h2 : 100 ≤ maxSize) (h3 : overlap < maxSize) :
    ∃ l, chunkDocument fuel content maxSize overlap preserveSections = .ok l := by
  unfold chunkDocument
  rw [if_neg h1, if_neg (by omega), if_neg (by omega)]
  dsimp only
  split
  · exact ⟨_, rfl⟩
  · split
    · split
      · exact ⟨_, rfl⟩
      · exact ⟨_, rfl⟩
    · exact ⟨_, rfl⟩

/-- C10: on every input satisfying the preconditions (`content` non-empty after
trimming, `max_chunk_size ≥ 100`, `overlap < max_chunk_size`) `chunk_document`
terminates with a list; in particular its result does not depend on the fuel
bounding the character-count loop, because the only path into that loop —
`_split_by_sentences`'s empty-split branch — is unreachable. -/
theorem chunkDocument_terminates (content : List Char) (maxSize overlap : Nat)
    (preserveSections : Bool)
    (h1 : pstrip content ≠ []) (h2 : 100 ≤ maxSize) (h3 : overlap < maxSize) :
    ∃ l, ∀ fuel,
      chunkDocument fuel content maxSize overlap preserveSections = .ok l := by
  obtain ⟨l, hl⟩ :=
    chunkDocument_ok 0 content maxSize overlap preserveSections h1 h2 h3
  exact ⟨l, fun fuel =>
    (chunkDocument_fuel_indep fuel 0 content maxSize overlap
      preserveSections).trans hl⟩

theorem chunkDocument_terminates_witness :
    pstrip "ab".data ≠ [] ∧ 100 ≤ 100 ∧ 0 < 100 ∧
    ∃ l, ∀ fuel, chunkDocument fuel "ab".data 100 0 true = .ok l :=
  ⟨by decide, by decide, by decide,
   chunkDocument_terminates "ab".data 100 0 true (by decide) (by decide)
     (by decide)⟩

set_option maxRecDepth 40000 in
/-- The loop of `_split_by_character_count` genuinely fails to advance on
`divergentContent` with `max_chunk_size=100, overlap=50`: starting from
position 10, no amount of fuel produces a result.  (Unreachable from
`chunk_document`; see `chunkDocument_terminates`.) -/
theorem splitCharAux_diverges (f : Nat) :
    splitCharAux divergentContent 100 50 f 10 = none := by
  induction f with
  | zero => rfl
  | succ f ih =>
    have h60 : pyRfindSpace divergentContent 10 110 = 60 := by decide
    have hlen : (divergentContent.length : Int) = 261 := by decide
    simp only [splitCharAux, hlen]
    norm_num
    rw [h60]
    norm_num
    rw [ih]

/-! ## C6: the chunk-size bound -/

set_option maxRecDepth 40000 in
/-- C6 counterexample: the input `"a. " ++ 300*'y'` contains a sentence
boundary (its sentence split has two pieces), yet `chunk_document` with
`max_chunk_size=100, overlap=50` returns a 300-character chunk.  The over-long
chunk comes from the sentence tier (a single sentence longer than `max_size` is
kept whole), not from the fixed-width tier, so the claimed bound — `max_size`
with tolerance only for the fixed-width tier — fails. -/
theorem chunkDocument_bound_violated :
    chunkDocument 0 ("a. ".data ++ List.replicate 300 'y') 100 50 true =
      .ok [['a', '.'], List.replicate 300 'y'] ∧
    (splitSentences (pstrip ("a. ".data ++ List.replicate 300 'y'))).length = 2 ∧
    (List.replicate 300 'y').length = 300 := by
  refine ⟨by decide, by decide, by simp⟩

theorem takeRight_length_le (overlap : Nat) (l : List Char) :
    (takeRight overlap l).length ≤ overlap := by
  unfold takeRight
  simp only [List.length_drop]
  omega

/-- Invariant of the greedy paragraph packing: when every paragraph fits in
`maxSize` minus the overlap seed and the separator, every packed chunk fits in
`maxSize`. -/
theorem packParagraphs_bound (maxSize overlap : Nat) (ps : List (List Char))
    (hps : ∀ p ∈ ps, p.length + overlap + 2 ≤ maxSize) :
    ∀ cur acc, cur.length ≤ maxSize → (∀ c ∈ acc, c.length ≤ maxSize) →
      ∀ c ∈ packParagraphs maxSize overlap ps cur acc, c.length ≤ maxSize := by
  induction ps with
  | nil =>
    intro cur acc hcur hacc c hc
    unfold packParagraphs at hc
    by_cases hne : cur ≠ []
    · rw [if_pos hne] at hc
      rcases List.mem_append.mp hc with h | h
      · exact hacc c h
      · obtain rfl : c = pstrip cur := by simpa using h
        exact le_trans (pstrip_length_le cur) hcur
    · rw [if_neg hne] at hc
      exact hacc c hc
  | cons p ps ih =>
    intro cur acc hcur hacc c hc
    have hp := hps p (by simp)
    have hps' : ∀ q ∈ ps, q.length + overlap + 2 ≤ maxSize :=
      fun q hq => hps q (by simp [hq])
    unfold packParagraphs at hc
    by_cases hclose : cur ≠ [] ∧ maxSize < cur.length + p.length + 2
    · rw [if_pos hclose] at hc
      refine ih hps' _ _ ?_ ?_ c hc
      · by_cases hov : 0 < overlap ∧ overlap ≤ cur.length
        · rw [if_pos hov]
          simp only [List.length_append, List.length_cons]
          have ha := le_trans (pstrip_length_le (takeRight overlap cur))
            (takeRight_length_le overlap cur)
          omega
        · rw [if_neg hov]
          omega
      · intro d hd
        rcases List.mem_append.mp hd with h | h
        · exact hacc d h
        · obtain rfl : d = pstrip cur := by simpa using h
          exact le_trans (pstrip_length_le cur) hcur
    · rw [if_neg hclose] at hc
      refine ih hps' _ _ ?_ hacc c hc
      by_cases hcur0 : cur = []
      · rw [if_pos hcur0]
        omega
      · rw [if_neg hcur0]
        simp only [List.length_append, List.length_cons]
        rcases not_and_or.mp hclose with h | h
        · exact absurd hcur0 (by simpa using h)
        · omega

/-- A non-empty strip contains a non-whitespace character of the stripped
list itself. -/
theorem exists_nonspace_mem_pstrip (l : List Char) (h : pstrip l ≠ []) :
    ∃ c ∈ pstrip l, isPySpace c = false := by
  unfold pstrip at *
  have hzne : (l.dropWhile isPySpace).reverse.dropWhile isPySpace ≠ [] := by
    intro hzz
    rw [hzz] at h
    simp at h
  refine ⟨((l.dropWhile isPySpace).reverse.dropWhile isPySpace).head hzne,
    ?_, ?_⟩
  · rw [List.mem_reverse]
    exact List.head_mem hzne
  · exact List.head_dropWhile_not isPySpace _ hzne

/-- If the remaining text or the current piece contains a non-whitespace
character, the paragraph scanner emits a piece that is non-empty after
stripping. -/
theorem paraSplitAux_exists_nonblank (l : List Char) :
    ∀ (mode : ParaMode) (acc : List Char),
      ((∃ c ∈ l, isPySpace c = false) ∨ (∃ c ∈ acc, isPySpace c = false)) →
      ∃ piece ∈ paraSplitAux l mode acc, pstrip piece ≠ [] := by
  induction l with
  | nil =>
    intro mode acc h
    rcases h with ⟨c, hc, -⟩ | ⟨c, hc, hcs⟩
    · exact absurd hc (by simp)
    · cases mode with
      | normal =>
        exact ⟨acc.reverse, by simp [paraSplitAux],
          pstrip_ne_nil_of_mem _ c (by simpa using hc) hcs⟩
      | sep buf =>
        unfold paraSplitAux
        cases paraFlush buf with
        | some t =>
          exact ⟨acc.reverse, by simp,
            pstrip_ne_nil_of_mem _ c (by simpa using hc) hcs⟩
        | none =>
          exact ⟨(buf ++ acc).reverse, by simp,
            pstrip_ne_nil_of_mem _ c (by simp [hc]) hcs⟩
  | cons a rest ih =>
    intro mode acc h
    cases mode with
    | normal =>
      unfold paraSplitAux
      by_cases ha : a = '\n'
      · rw [if_pos ha]
        apply ih
        rcases h with ⟨c, hc, hcs⟩ | hacc
        · rcases List.mem_cons.mp hc with rfl | hc'
          · exact absurd hcs (by simp [ha, isPySpace])
          · exact Or.inl ⟨c, hc', hcs⟩
        · exact Or.inr hacc
      · rw [if_neg ha]
        apply ih
        rcases h with ⟨c, hc, hcs⟩ | ⟨c, hc, hcs⟩
        · rcases List.mem_cons.mp hc with rfl | hc'
          · exact Or.inr ⟨c, by simp, hcs⟩
          · exact Or.inl ⟨c, hc', hcs⟩
        · exact Or.inr ⟨c, by simp [hc], hcs⟩
    | sep buf =>
      unfold paraSplitAux
      by_cases ha : isPySpace a = true
      · rw [if_pos ha]
        apply ih
        rcases h with ⟨c, hc, hcs⟩ | hacc
        · rcases List.mem_cons.mp hc with rfl | hc'
          · exact absurd hcs (by simp [ha])
          · exact Or.inl ⟨c, hc', hcs⟩
        · exact Or.inr hacc
      · rw [if_neg ha]
        cases paraFlush buf with
        | some t =>
          obtain ⟨piece, hmem, hpiece⟩ := ih .normal (a :: t)
            (Or.inr ⟨a, by simp, by simpa using ha⟩)
          exact ⟨piece, by simp [hmem], hpiece⟩
        | none =>
          exact ih .normal (a :: (buf ++ acc))
            (Or.inr ⟨a, by simp, by simpa using ha⟩)

/-- When every chunk already fits, the final sentence-tier pass of
`_split_by_paragraphs` passes the list through unchanged. -/
theorem flatMap_singleton_of_le (maxSize : Nat)
    (g : List Char → List (List Char)) (l : List (List Char))
    (h : ∀ c ∈ l, c.length ≤ maxSize) :
    (l.flatMap fun c => if c.length ≤ maxSize then [c] else g c) = l := by
  induction l with
  | nil => rfl
  | cons a t ih =>
    have ha := h a (by simp)
    simp only [List.flatMap_cons, if_pos ha]
    rw [ih (fun c hc => h c (by simp [hc]))]
    rfl

/-- C6 amended: the `len(C) ≤ max_size` bound does **not** hold for all inputs
with a paragraph/sentence boundary (see `chunkDocument_bound_violated`: a
single sentence longer than `max_size` is returned whole by the sentence tier);
it does hold, exactly and with no tolerance, whenever no SOAP split applies and
every stripped paragraph of the (stripped) input is at most
`max_size - overlap - 2` characters long, since then every chunk is produced by
the paragraph tier. -/
theorem chunkDocument_bound (fuel : Nat) (content : List Char)
    (maxSize overlap : Nat)
    (h1 : pstrip content ≠ []) (h2 : 100 ≤ maxSize) (h3 : overlap < maxSize)
    (hsoap : splitBySoapSections (pstrip content) maxSize = [])
    (hpara : ∀ p ∈ ((splitParagraphs (pstrip content)).map pstrip).filter
        (· ≠ []), p.length + overlap + 2 ≤ maxSize) :
    ∃ l, chunkDocument fuel content maxSize overlap true = .ok l ∧
      ∀ c ∈ l, c.length ≤ maxSize := by
  unfold chunkDocument
  rw [if_neg h1, if_neg (by omega), if_neg (by omega)]
  dsimp only
  by_cases hlen : (pstrip content).length ≤ maxSize
  · rw [if_pos hlen]
    refine ⟨_, rfl, ?_⟩
    intro c hc
    obtain rfl : c = pstrip content := by simpa using hc
    exact hlen
  · rw [if_neg hlen, if_pos rfl, if_neg (by simp [hsoap])]
    refine ⟨_, rfl, ?_⟩
    intro c hc
    unfold splitByParagraphs at hc
    have hpne : ((splitParagraphs (pstrip content)).map pstrip).filter
        (· ≠ []) ≠ [] := by
      obtain ⟨d, hd, hds⟩ := exists_nonspace_mem_pstrip content h1
      obtain ⟨piece, hpm, hpne⟩ := paraSplitAux_exists_nonblank
        (pstrip content) .normal [] (Or.inl ⟨d, hd, hds⟩)
      exact List.ne_nil_of_mem (List.mem_filter.mpr
        ⟨List.mem_map_of_mem pstrip hpm, by simpa using hpne⟩)
    rw [if_neg hpne] at hc
    have hbound := packParagraphs_bound maxSize overlap
      (((splitParagraphs (pstrip content)).map pstrip).filter (· ≠ []))
      hpara [] [] (by simp) (by simp)
    rw [flatMap_singleton_of_le maxSize _ _ hbound] at hc
    exact hbound c hc

set_option maxRecDepth 40000 in
/-- C6 witness: two 60-character paragraphs, `max_chunk_size=100, overlap=0` —
every chunk respects the bound. -/
theorem chunkDocument_bound_witness :
    (pstrip ((List.replicate 60 'a' ++ '\n' :: '\n' :: List.replicate 60 'b')
        : List Char) ≠ [] ∧
      splitBySoapSections (pstrip (List.replicate 60 'a' ++ '\n' :: '\n' ::
        List.replicate 60 'b')) 100 = [] ∧
      ∀ p ∈ ((splitParagraphs (pstrip (List.replicate 60 'a' ++ '\n' :: '\n' ::
        List.replicate 60 'b'))).map pstrip).filter (· ≠ []),
        p.length + 0 + 2 ≤ 100) ∧
    ∃ l, chunkDocument 0 (List.replicate 60 'a' ++ '\n' :: '\n' ::
        List.replicate 60 'b') 100 0 true = .ok l ∧
      ∀ c ∈ l, c.length ≤ 100 :=
  ⟨⟨by decide, by decide, by decide⟩,
   chunkDocument_bound 0 _ 100 0 (by decide) (by decide) (by decide)
     (by decide) (by decide)⟩

theorem checkSummaryCache_fresh_iff_witness :
    checkSummaryCache c7db 1 = some ⟨['s'], ['m'], ⟨1, 2, 3⟩, true⟩ :=
  ((checkSummaryCache_fresh_iff c7db 1).1 _).mpr
    ⟨⟨1, ['t'], ['x'], 5⟩, ⟨1, ['s'], ['m'], some ⟨1, 2, 3⟩, 7⟩,
     rfl, rfl, by decide, rfl⟩
